import Mathlib

/-!
Verification of the VoiceShut-UP bot (`src/bot.py`) against its
natural-language specification.  Strings are modelled as `List Char`
(Python `str` is a sequence of characters; `len`, slicing, `rfind`,
`lstrip`, `split` all operate on characters).  Effectful code is modelled
by explicit state passing / traces; fallible code returns `Except`.
-/

namespace VoiceBot

/-- Equality of `Except` values is decidable componentwise (needed to
evaluate concrete runs of the fallible operations below). -/
instance {ε α : Type} [DecidableEq ε] [DecidableEq α] : DecidableEq (Except ε α) := fun
  | Except.ok a, Except.ok b =>
    if h : a = b then isTrue (by rw [h]) else isFalse (by simp [h])
  | Except.ok _, Except.error _ => isFalse (by simp)
  | Except.error _, Except.ok _ => isFalse (by simp)
  | Except.error e, Except.error f =>
    if h : e = f then isTrue (by rw [h]) else isFalse (by simp [h])

/-- Python's ASCII whitespace set, as used by `str.lstrip()` / `str.strip()`
and by the regex class `\s` (ASCII part): space, tab, newline, carriage
return, vertical tab, form feed.  (Python also strips some non-ASCII
Unicode whitespace; none of the claims involves such characters.) -/
def pyIsSpace (c : Char) : Bool :=
  c = ' ' ∨ c = '\t' ∨ c = '\n' ∨ c = '\r' ∨ c = '\x0b' ∨ c = '\x0c'

/-- Python substring test `needle in hay`. -/
def isSubstring (needle : List Char) : List Char → Bool
  | [] => needle.isEmpty
  | c :: t => needle.isPrefixOf (c :: t) || isSubstring needle t

/-- One character of Python's `html.escape`; `quote` adds the `"`/`'`
replacements (Python's default is `quote=True`). -/
def escChar (quote : Bool) (c : Char) : List Char :=
  if c = '&' then ['&', 'a', 'm', 'p', ';']
  else if c = '<' then ['&', 'l', 't', ';']
  else if c = '>' then ['&', 'g', 't', ';']
  else if quote ∧ c = '"' then ['&', 'q', 'u', 'o', 't', ';']
  else if quote ∧ c = '\'' then ['&', '#', 'x', '2', '7', ';']
  else [c]

/-- Python `html.escape(s, quote)`. -/
def pyEscape (quote : Bool) (s : List Char) : List Char :=
  (s.map (escChar quote)).flatten

/-- Python `str.strip()`: whitespace removed from both ends. -/
def pyStrip (s : List Char) : List Char :=
  ((s.dropWhile pyIsSpace).reverse.dropWhile pyIsSpace).reverse

/-- Regex `\w` (ASCII part): letters, digits, underscore. -/
def isWordChar (c : Char) : Bool :=
  c.isAlphanum || c = '_'

/-- The two-character paragraph separator `'\n\n'` of `split_message`. -/
def nn : List Char := ['\n', '\n']

/-- Index of the last `' '` in a list, mirroring Python's
`s.rfind(' ')` (which returns `-1`, here `none`, when absent). -/
def rfindSpace : List Char → Option Nat
  | [] => none
  | c :: rest =>
    match rfindSpace rest with
    | some i => some (i + 1)
    | none => if c = ' ' then some 0 else none

/-- The `while len(current_part) > max_length` loop of `split_message`
(src/bot.py lines 446–451): repeatedly split off
`current_part[:split_point]` where `split_point` is
`current_part[:max_length].rfind(' ')`, or `max_length` when there is no
space, and continue with `current_part[split_point:].lstrip()`.
`fuel` makes the recursion structural; `hardSplit` passes `cp.length`,
which suffices because every iteration removes at least one character
when `maxLen ≥ 1`.  (For `max_length = 0` the Python loop does not
terminate on inputs such as `"ab"`; all claims assume a positive
`max_length`.)

`splitPoint` is the `split_point` computation: `current_part[:max_length].rfind(' ')`,
or `max_length` when that is `-1`. -/
def splitPoint (maxLen : Nat) (cp : List Char) : Nat :=
  match rfindSpace (cp.take maxLen) with
  | some i => i
  | none => maxLen

def hardSplitAux (maxLen : Nat) : Nat → List Char → List (List Char) × List Char
  | 0, cp => ([], cp)
  | fuel + 1, cp =>
    if cp.length ≤ maxLen then ([], cp)
    else
      let sp := splitPoint maxLen cp
      let r := hardSplitAux maxLen fuel ((cp.drop sp).dropWhile pyIsSpace)
      (cp.take sp :: r.1, r.2)

def hardSplit (maxLen : Nat) (cp : List Char) : List (List Char) × List Char :=
  hardSplitAux maxLen cp.length cp

/-- Python `message.split('\n\n')`: split on each non-overlapping
occurrence of the two-newline separator, leftmost first. -/
def splitPar : List Char → List (List Char)
  | [] => [[]]
  | [c] => [[c]]
  | c1 :: c2 :: rest =>
    if c1 = '\n' ∧ c2 = '\n' then [] :: splitPar rest
    else
      match splitPar (c2 :: rest) with
      | [] => [[c1]]
      | p :: ps => (c1 :: p) :: ps

/-- The `for paragraph in paragraphs` loop of `split_message`
(src/bot.py lines 435–451), with the trailing
`if current_part: parts.append(current_part)` folded into the base
case.  State: accumulated `parts`, the running `current_part`. -/
def packLoop (maxLen : Nat) : List (List Char) → List Char → List (List Char) → List (List Char)
  | parts, cp, [] => if cp = [] then parts else parts ++ [cp]
  | parts, cp, p :: ps =>
    if cp.length + p.length + 2 ≤ maxLen then
      packLoop maxLen parts (if cp = [] then p else cp ++ nn ++ p) ps
    else
      let parts' := if cp = [] then parts else parts ++ [cp]
      let r := hardSplit maxLen p
      packLoop maxLen (parts' ++ r.1) r.2 ps

/-- `split_message(message, max_length)` of src/bot.py lines 426–456. -/
def split_message (message : List Char) (maxLen : Nat) : List (List Char) :=
  if message.length ≤ maxLen then [message]
  else packLoop maxLen [] [] (splitPar message)

/-! ### Reconstruction helpers for the chunking invariant -/

/-- `glue [p0,…,pn] [s0,…,sn] = p0 ++ s0 ++ … ++ pn ++ sn`: the chunks
interleaved with the separator text dropped after each chunk. -/
def glue : List (List Char) → List (List Char) → List Char
  | [], _ => []
  | _ :: _, [] => []
  | p :: ps, s :: ss => p ++ s ++ glue ps ss

/-- Append `u` to the last element of a list of strings. -/
def appendLast (u : List Char) : List (List Char) → List (List Char)
  | [] => []
  | [s] => [s ++ u]
  | s :: ss => s :: appendLast u ss

/-- Every paragraph prefixed by the separator, joined. -/
def preJoin (paras : List (List Char)) : List Char :=
  (paras.map (fun p => nn ++ p)).flatten

/-- Inverse of `splitPar`: paragraphs rejoined with `'\n\n'`. -/
def joinNN : List (List Char) → List Char
  | [] => []
  | p :: ps => p ++ preJoin ps

/-- A string consisting only of (Python) whitespace. -/
def allWs (w : List Char) : Bool := w.all pyIsSpace

/-! ### Provider retry/fallback policy (`retry_with_model_fallback`) -/

/-- The two provider targets hard-wired in `retry_with_model_fallback`
(src/bot.py lines 129–130): `gemini-2.5-flash` and `gemini-2.0-flash-001`. -/
inductive ModelName
  | primary
  | fallback
  deriving DecidableEq

/-- The fixed transient-error tokens of src/bot.py line 159. -/
def transientTokens : List (List Char) :=
  [['5', '0', '3'], ['4', '2', '9'], ['5', '0', '0'],
   "overloaded".data, "unavailable".data, "timeout".data]

/-- `any(code in str(e).lower() for code in [...])`. -/
def isTransient (e : List Char) : Bool :=
  transientTokens.any (fun t => isSubstring t (e.map Char.toLower))

/-- The primary loop of `retry_with_model_fallback` (src/bot.py lines
133–146): 3 attempts against the primary model; every exception —
transient or not, the computed `error_str` is never consulted here —
leads to a retry while attempts remain, then to a `break` into the
fallback phase.  `op` is the wrapped operation, indexed by the number of
calls made so far and the model passed; returns the successful value (if
any) and the updated call count.  `remaining` starts at 3. -/
def primaryPhase {α : Type} (op : Nat → ModelName → Except (List Char) α) :
    Nat → Nat → Option α × Nat
  | 0, n => (none, n)
  | remaining + 1, n =>
    match op n ModelName.primary with
    | Except.ok a => (some a, n + 1)
    | Except.error _ => primaryPhase op remaining (n + 1)

/-- The fallback loop of `retry_with_model_fallback` (src/bot.py lines
149–169): up to 5 attempts against the fallback model; a transient error
with attempts remaining sleeps and retries, any other error is re-raised
at once.  `remaining` starts at 5; the `0` case is the dead
`raise last_exception` after the loop (unreachable: the last attempt
either returns or raises inside the loop). -/
def fallbackPhase {α : Type} (op : Nat → ModelName → Except (List Char) α) :
    Nat → Nat → Except (List Char) α × Nat
  | 0, n => (Except.error [], n)
  | remaining + 1, n =>
    match op n ModelName.fallback with
    | Except.ok a => (Except.ok a, n + 1)
    | Except.error e =>
      if isTransient e ∧ 1 ≤ remaining then fallbackPhase op remaining (n + 1)
      else (Except.error e, n + 1)

/-- `retry_with_model_fallback()` of src/bot.py lines 123–171, as a
function of the wrapped operation: the result together with the total
number of calls made to `op`. -/
def retry_with_model_fallback {α : Type} (op : Nat → ModelName → Except (List Char) α) :
    Except (List Char) α × Nat :=
  match primaryPhase op 3 0 with
  | (some a, n) => (Except.ok a, n)
  | (none, n) => fallbackPhase op 5 n

/-! ### Summarization orchestrator (`summarize_text`) -/

/-- `"Ошибка: Получен пустой ответ от API при создании резюме."`
(src/bot.py line 416). -/
def sumEmptyMsg : List Char :=
  "Ошибка: Получен пустой ответ от API при создании резюме.".data

/-- `"Ошибка при создании резюме: "` (src/bot.py line 423). -/
def sumErrPre : List Char := "Ошибка при создании резюме: ".data

/-- One call of the inner `summarize_text` body (src/bot.py lines
394–423) given the provider's response for that call: a raised provider
exception is caught and turned into a visible error string; a falsy
(`None`/empty) response text becomes the empty-response message;
otherwise the response text is returned.  (A `None` response is modelled
as the empty string: both are falsy and take the same branch.)  The body
never raises. -/
def summarizeCall (resp : Except (List Char) (List Char)) : List Char :=
  match resp with
  | Except.error e => sumErrPre ++ e
  | Except.ok t => if t = [] then sumEmptyMsg else t

/-- The inner body as the operation wrapped by the decorator: it always
returns normally. -/
def summarizeOp (provider : Nat → ModelName → Except (List Char) (List Char)) :
    Nat → ModelName → Except (List Char) (List Char) :=
  fun n m => Except.ok (summarizeCall (provider n m))

/-- The decorated `summarize_text` (src/bot.py lines 370–423):
`retry_with_model_fallback` applied to the body, with the provider's
per-call behaviour (`provider n m` = response of the `n`-th call, made
with model `m`) as the environment. -/
def summarize_text (provider : Nat → ModelName → Except (List Char) (List Char)) :
    Except (List Char) (List Char) × Nat :=
  retry_with_model_fallback (summarizeOp provider)

/-! ### Transcription orchestrator (`audio_to_text`) -/

/-- The empty-response message raised in `audio_to_text`
(src/bot.py line 221). -/
def sttEmptyMsg : List Char :=
  "Получен пустой ответ от API. Возможно, аудио не содержит речи или модель не смогла его обработать.".data

/-- `"Ошибка при транскрипции аудио: "` (src/bot.py line 228). -/
def sttErrPre : List Char := "Ошибка при транскрипции аудио: ".data

/-- One call of the inner `audio_to_text` body (src/bot.py lines
176–228) given the provider's response: a falsy (`None`/empty) response
text makes the body `raise` the empty-response exception; every
exception (the provider's or that one) is re-raised wrapped in the
transcription-error prefix.  Unlike `summarizeCall`, this body raises. -/
def audioToTextOnce (resp : Except (List Char) (List Char)) : Except (List Char) (List Char) :=
  match resp with
  | Except.error e => Except.error (sttErrPre ++ e)
  | Except.ok t => if t = [] then Except.error (sttErrPre ++ sttEmptyMsg) else Except.ok t

/-- The decorated `audio_to_text` (src/bot.py lines 173–228). -/
def audio_to_text (stt : Nat → ModelName → Except (List Char) (List Char)) :
    Except (List Char) (List Char) × Nat :=
  retry_with_model_fallback (fun n m => audioToTextOnce (stt n m))

/-! ### HTML well-formedness check (`HTMLValidator` / `validate_html`) -/

/-- The backtick character (written by code to satisfy lexical
constraints of this development). -/
def bt : Char := '\x60'

/-- Events fed by `HTMLParser` to `HTMLValidator`'s
`handle_starttag` / `handle_endtag`. -/
inductive TagEvent
  | openTag (name : List Char)
  | closeTag (name : List Char)
  deriving DecidableEq

/-- Characters allowed after the first letter of a tag name
(`HTMLParser` stops a name at whitespace, `/` or `>`). -/
def tagRestChar (c : Char) : Bool :=
  ¬(pyIsSpace c || c = '/' || c = '>')

/-- Scan from inside a tag (after its name) to the closing `>`;
returns whether the tag is self-closing (`/>`) and the remainder.
`none` when the tag is never closed (no events are produced then). -/
def skipGt : List Char → Option (Bool × List Char)
  | [] => none
  | c :: r =>
    if c = '>' then some (false, r)
    else if c = '/' then
      match r with
      | '>' :: r2 => some (true, r2)
      | _ => skipGt r
    else skipGt r

/-- The tag events of a string, as Python's `HTMLParser.feed` reports
them to the validator: `<name…>` is a start tag, `</name…>` an end tag,
`<name…/>` a start-end pair (`handle_startendtag`'s default calls both
handlers); names are lowercased.  `<` followed by a non-letter produces
no tag event (declarations, comments and stray `<` are not start/end
tags; the simplification of scanning their content as ordinary text does
not affect the inputs considered here, which contain no such
constructs).  `fuel` makes the recursion structural; the input's length
suffices since each step consumes at least one character. -/
def scanTagsAux : Nat → List Char → List TagEvent
  | 0, _ => []
  | _, [] => []
  | f + 1, c :: r =>
    if c = '<' then
      match r with
      | '/' :: c2 :: r3 =>
        if c2.isAlpha then
          let nm := (c2 :: r3.takeWhile tagRestChar).map Char.toLower
          match skipGt (r3.dropWhile tagRestChar) with
          | some (_, r4) => TagEvent.closeTag nm :: scanTagsAux f r4
          | none => scanTagsAux f r
        else scanTagsAux f r
      | c1 :: r2 =>
        if c1.isAlpha then
          let nm := (c1 :: r2.takeWhile tagRestChar).map Char.toLower
          match skipGt (r2.dropWhile tagRestChar) with
          | some (selfClose, r4) =>
            if selfClose then
              TagEvent.openTag nm :: TagEvent.closeTag nm :: scanTagsAux f r4
            else TagEvent.openTag nm :: scanTagsAux f r4
          | none => scanTagsAux f r
        else scanTagsAux f r
      | [] => []
    else scanTagsAux f r

def scanTags (s : List Char) : List TagEvent := scanTagsAux s.length s

/-- One event against `HTMLValidator`'s `tags` list (src/bot.py lines
41–48): a start tag is appended; an end tag pops a matching top, and is
recorded as `"/" + tag` otherwise. -/
def hvStep (stack : List (List Char)) : TagEvent → List (List Char)
  | TagEvent.openTag nm => stack ++ [nm]
  | TagEvent.closeTag nm =>
    match stack.getLast? with
    | some t => if t = nm then stack.dropLast else stack ++ [('/' :: nm)]
    | none => stack ++ [('/' :: nm)]

/-- `validate_html` (src/bot.py lines 53–56): feed the string, then
`is_valid()` = the tag list is empty. -/
def validate_html (s : List Char) : Bool :=
  ((scanTags s).foldl hvStep []).isEmpty

/-! ### Markup formatter (`format_html`) -/

/-- The replacement of `code_block_replacer` (src/bot.py lines 59–63):
`<pre><code class="lang">` + `html.escape(body.strip())` + `</code></pre>`. -/
def codeRepl (lang body : List Char) : List Char :=
  "<pre><code class=\"".data ++ lang ++ "\">".data ++
    pyEscape true (pyStrip body) ++ "</code></pre>".data

/-- Lazy search for the closing triple backtick of
`` ```(\w+)?\n(.*?)``` `` (DOTALL): the shortest body followed by three
backticks.  `none` when the fence is never closed. -/
def findClose3 : List Char → Option (List Char × List Char)
  | c1 :: c2 :: c3 :: r =>
    if c1 = bt ∧ c2 = bt ∧ c3 = bt then some ([], r)
    else
      match findClose3 (c2 :: c3 :: r) with
      | some (b, rest) => some (c1 :: b, rest)
      | none => none
  | _ => none

/-- Lazy search for a one-character terminator, DOTALL (the body may
contain newlines). -/
def findOneDotAll (term : Char) : List Char → Option (List Char × List Char)
  | [] => none
  | c :: r =>
    if c = term then some ([], r)
    else
      match findOneDotAll term r with
      | some (b, rest) => some (c :: b, rest)
      | none => none

/-- Lazy search for a one-character terminator without DOTALL: `.`
does not match a newline, so the body must be newline-free. -/
def findOne (term : Char) : List Char → Option (List Char × List Char)
  | [] => none
  | c :: r =>
    if c = term then some ([], r)
    else if c = '\n' then none
    else
      match findOne term r with
      | some (b, rest) => some (c :: b, rest)
      | none => none

/-- Lazy search for the closing `**` of `\*\*(.*?)\*\*` (no DOTALL). -/
def findB : List Char → Option (List Char × List Char)
  | c1 :: c2 :: r =>
    if c1 = '*' ∧ c2 = '*' then some ([], r)
    else if c1 = '\n' then none
    else
      match findB (c2 :: r) with
      | some (b, rest) => some (c1 :: b, rest)
      | none => none
  | _ => none

/-- Step 1 of `format_html` (src/bot.py line 66):
`re.sub(r'```(\w+)?\n(.*?)```', code_block_replacer, text, flags=DOTALL)`.
At a triple backtick, a greedy word run must be followed by a newline
(`\w` cannot match `\n`, so the regex matches exactly then); the lazy
body runs to the earliest closing triple backtick.  On a failed match
the scan advances one character, as `re.sub` does. -/
def sub1Aux : Nat → List Char → List Char
  | 0, s => s
  | _, [] => []
  | f + 1, c :: r =>
    if c = bt then
      match r with
      | c2 :: c3 :: r3 =>
        if c2 = bt ∧ c3 = bt then
          let lang := r3.takeWhile isWordChar
          match r3.dropWhile isWordChar with
          | '\n' :: r5 =>
            match findClose3 r5 with
            | some (body, rest) => codeRepl lang body ++ sub1Aux f rest
            | none => c :: sub1Aux f r
          | _ => c :: sub1Aux f r
        else c :: sub1Aux f r
      | _ => c :: sub1Aux f r
    else c :: sub1Aux f r

/-- Step 2 (src/bot.py line 69): `re.sub(r'`(\w+)\n(.*?)`', …, DOTALL)` —
single-backtick fence with a mandatory language word. -/
def sub2Aux : Nat → List Char → List Char
  | 0, s => s
  | _, [] => []
  | f + 1, c :: r =>
    if c = bt then
      let w := r.takeWhile isWordChar
      if w.isEmpty then c :: sub2Aux f r
      else
        match r.dropWhile isWordChar with
        | '\n' :: r3 =>
          match findOneDotAll bt r3 with
          | some (body, rest) => codeRepl w body ++ sub2Aux f rest
          | none => c :: sub2Aux f r
        | _ => c :: sub2Aux f r
    else c :: sub2Aux f r

/-- Step 3 (src/bot.py line 72): `re.sub(r'^\* ', '• ', MULTILINE)`.
`atStart` tracks whether the current position follows a newline (or is
the start of the string). -/
def sub3Aux : Nat → Bool → List Char → List Char
  | 0, _, s => s
  | _, _, [] => []
  | f + 1, atStart, c :: r =>
    if atStart ∧ c = '*' then
      match r with
      | ' ' :: r2 => '•' :: ' ' :: sub3Aux f false r2
      | _ => c :: sub3Aux f (c = '\n') r
    else c :: sub3Aux f (c = '\n') r

/-- Step 4 (src/bot.py line 75): `\*\*(.*?)\*\*` → `<b>…</b>`. -/
def sub4Aux : Nat → List Char → List Char
  | 0, s => s
  | _, [] => []
  | f + 1, c :: r =>
    if c = '*' then
      match r with
      | c2 :: r2 =>
        if c2 = '*' then
          match findB r2 with
          | some (body, rest) => "<b>".data ++ body ++ "</b>".data ++ sub4Aux f rest
          | none => c :: sub4Aux f r
        else c :: sub4Aux f r
      | [] => [c]
    else c :: sub4Aux f r

/-- Step 5 (src/bot.py line 78): `\*(.*?)\*` → `<i>…</i>`. -/
def sub5Aux : Nat → List Char → List Char
  | 0, s => s
  | _, [] => []
  | f + 1, c :: r =>
    if c = '*' then
      match findOne '*' r with
      | some (body, rest) => "<i>".data ++ body ++ "</i>".data ++ sub5Aux f rest
      | none => c :: sub5Aux f r
    else c :: sub5Aux f r

/-- Step 6 (src/bot.py line 81): `` `(.*?)` `` → `<code>…</code>`. -/
def sub6Aux : Nat → List Char → List Char
  | 0, s => s
  | _, [] => []
  | f + 1, c :: r =>
    if c = bt then
      match findOne bt r with
      | some (body, rest) => "<code>".data ++ body ++ "</code>".data ++ sub6Aux f rest
      | none => c :: sub6Aux f r
    else c :: sub6Aux f r

/-- Step 7 (src/bot.py line 84): `re.sub(r'^#+\s+', '', MULTILINE)` —
a line-leading run of `#` followed by at least one whitespace character
is removed (the greedy `\s+` eats the whole whitespace run, newlines
included); whether the next position is a line start depends on the last
whitespace character removed. -/
def sub7Aux : Nat → Bool → List Char → List Char
  | 0, _, s => s
  | _, _, [] => []
  | f + 1, atStart, c :: r =>
    if atStart ∧ c = '#' then
      let afterHash := r.dropWhile (fun x => x = '#')
      let ws := afterHash.takeWhile pyIsSpace
      if ws.isEmpty then c :: sub7Aux f false r
      else sub7Aux f (ws.getLast? == some '\n') (afterHash.dropWhile pyIsSpace)
    else c :: sub7Aux f (c = '\n') r

/-- The ordered alternation of the unescape regex (src/bot.py line 90):
`b|strong|i|em|u|ins|s|strike|del|code|pre|tg-spoiler`. -/
def tagAlt : List (List Char) :=
  [['b'], "strong".data, ['i'], "em".data, ['u'], "ins".data, ['s'],
   "strike".data, "del".data, "code".data, "pre".data, "tg-spoiler".data]

def ampLt : List Char := ['&', 'l', 't', ';']

def ampGt : List Char := ['&', 'g', 't', ';']

/-- Step 9 (src/bot.py line 90):
`re.sub(r'&lt;(/?(?:…))&gt;', r'<\1>', text)` — an escaped tag from the
fixed vocabulary, with nothing between the name and `&gt;`, is
selectively un-escaped.  The first alternative followed directly by
`&gt;` wins, as in the regex. -/
def sub9Aux : Nat → List Char → List Char
  | 0, s => s
  | _, [] => []
  | f + 1, c :: r =>
    if ampLt.isPrefixOf (c :: r) then
      let r2 := (c :: r).drop 4
      let sl := match r2 with
                | '/' :: rr => (true, rr)
                | _ => (false, r2)
      match tagAlt.find? (fun t => (t ++ ampGt).isPrefixOf sl.2) with
      | some t =>
        ('<' :: (if sl.1 then '/' :: t else t) ++ ['>']) ++
          sub9Aux f (sl.2.drop (t.length + 4))
      | none => c :: sub9Aux f r
    else c :: sub9Aux f r

/-- `format_html` (src/bot.py lines 58–92): the nine sequential text
rewrites.  Each scanner's fuel is its input's length, which bounds the
number of scanning steps since every step consumes at least one input
character. -/
def format_html (text : List Char) : List Char :=
  let t1 := sub1Aux text.length text
  let t2 := sub2Aux t1.length t1
  let t3 := sub3Aux t2.length true t2
  let t4 := sub4Aux t3.length t3
  let t5 := sub5Aux t4.length t4
  let t6 := sub6Aux t5.length t5
  let t7 := sub7Aux t6.length true t6
  let t8 := pyEscape false t7
  sub9Aux t8.length t8

/-! ### Chunked delivery (`send_formatted_message`) -/

/-- Python `text.split('\n\n', 1)`: the first occurrence only.
`none` when the separator is absent (`len(parts) == 1`). -/
def splitOnceNN : List Char → Option (List Char × List Char)
  | [] => none
  | [_] => none
  | c1 :: c2 :: r =>
    if c1 = '\n' ∧ c2 = '\n' then some ([], r)
    else
      match splitOnceNN (c2 :: r) with
      | some (a, b) => some (c1 :: a, b)
      | none => none

/-- One `message.reply(text=…, parse_mode=…)` issued by
`send_formatted_message`. -/
structure SendCall where
  text : List Char
  parseMode : Option (List Char)
  deriving DecidableEq

def htmlMode : List Char := ['H', 'T', 'M', 'L']

/-- `MAX_MESSAGE_LENGTH` (src/bot.py line 30). -/
def MAX_MESSAGE_LENGTH : Nat := 4096

/-- `if title: text = f"<b>{title}</b>\n\n{text}"` (src/bot.py lines 460–461). -/
def titleWrap (text : List Char) : Option (List Char) → List Char
  | some t => "<b>".data ++ t ++ "</b>".data ++ nn ++ text
  | none => text

/-- The `use_spoiler` wrapping (src/bot.py lines 463–469):
`text.split('\n\n', 1)`, then the part after the first paragraph break
(or the whole text) goes inside `<tg-spoiler>…</tg-spoiler>`. -/
def spoilerWrap (s : List Char) (useSpoiler : Bool) : List Char :=
  if useSpoiler then
    match splitOnceNN s with
    | some (a, b) => a ++ nn ++ "<tg-spoiler>".data ++ b ++ "</tg-spoiler>".data
    | none => "<tg-spoiler>".data ++ s ++ "</tg-spoiler>".data
  else s

/-- `send_formatted_message` (src/bot.py lines 458–484) with the default
`parse_mode="HTML"`: build `<b>title</b>\n\n` + text, optionally wrap
the part after the first paragraph break in `<tg-spoiler>`, and if
`validate_html` rejects the result, set `parse_mode = None` and prepend
the plain title to the (already wrapped) text; finally send each chunk
of `split_message(text, 4096)`. -/
def send_formatted_message (text : List Char) (title : Option (List Char))
    (useSpoiler : Bool) : List SendCall :=
  let t2 := spoilerWrap (titleWrap text title) useSpoiler
  let pmT := if validate_html t2 then (some htmlMode, t2)
             else (none, match title with
                         | some t => t ++ nn ++ t2
                         | none => t2)
  (split_message pmT.2 MAX_MESSAGE_LENGTH).map (fun m => SendCall.mk m pmT.1)

/-! ### Processing pipeline (`process_audio`) -/

/-- The user-visible effects of `process_audio` (src/bot.py lines
499–534), in order: the transcript reply, the call into
`summarize_text`, the summary reply, or the error reply of the
`except` clause. -/
inductive Action
  | sendTranscript (t : List Char)
  | callSummarize (t : List Char)
  | sendSummary (s : List Char)
  | replyError (e : List Char)
  deriving DecidableEq

/-- `"Произошла ошибка при обработке аудио: "` (src/bot.py line 530). -/
def procErrPre : List Char := "Произошла ошибка при обработке аудио: ".data

/-- `process_audio` (src/bot.py lines 499–534) as a trace of its
user-visible actions: transcription first; on its success with non-empty
text, the escaped transcript is sent, then summarization is invoked
(whose wrapper never raises, see `summarizeCall`) and the formatted
summary sent; an exception is reported by the error reply.  The
`finally` cleanup of the mp3 file is not part of the trace. -/
def process_audio (stt sums : Nat → ModelName → Except (List Char) (List Char)) :
    List Action :=
  match (audio_to_text stt).1 with
  | Except.error e => [Action.replyError (procErrPre ++ e)]
  | Except.ok t =>
    if t = [] then []
    else
      match (summarize_text sums).1 with
      | Except.ok s =>
        [Action.sendTranscript (pyEscape true t), Action.callSummarize t,
         Action.sendSummary (format_html s)]
      | Except.error e =>
        [Action.sendTranscript (pyEscape true t), Action.callSummarize t,
         Action.replyError (procErrPre ++ e)]

/-! ### Media normalizer temporary-file lifecycle (`save_audio_as_mp3`) -/

/-- The two temporary files created on the `.oga` path of
`save_audio_as_mp3` (src/bot.py lines 257–266). -/
inductive TempFile
  | mp3Out
  | ogaIn
  deriving DecidableEq

/-- A file-system operation performed by `save_audio_as_mp3`. -/
inductive FsOp
  | create (f : TempFile)
  | unlink (f : TempFile)
  deriving DecidableEq

/-- The prefix of the exception raised by `convert_oga_to_mp3` on a
non-zero transcoder exit (src/bot.py line 242). -/
def ffmpegErrMsg : List Char := "FFmpeg error: ".data

/-- `save_audio_as_mp3` (src/bot.py lines 245–274) restricted to its
temporary-file behaviour: the `.mp3` output temp file is always created
first; on the `.oga` path the raw `.oga` temp file is created, the
transcoder runs (`transcodeOk` = its exit status is zero), and only
after a successful conversion is `os.unlink(input_path)` reached — the
raise inside `convert_oga_to_mp3` propagates out of the function before
the unlink.  Returns the ordered file-system trace and the function's
result. -/
def save_audio_as_mp3 (ogaSource transcodeOk : Bool) :
    List FsOp × Except (List Char) TempFile :=
  let t1 := [FsOp.create TempFile.mp3Out]
  if ogaSource then
    let t2 := t1 ++ [FsOp.create TempFile.ogaIn]
    if transcodeOk then
      (t2 ++ [FsOp.unlink TempFile.ogaIn], Except.ok TempFile.mp3Out)
    else (t2, Except.error ffmpegErrMsg)
  else (t1, Except.ok TempFile.mp3Out)

/-- The files on disk after a trace of file-system operations. -/
def remainingFiles (ops : List FsOp) : List TempFile :=
  ops.foldl
    (fun acc op =>
      match op with
      | FsOp.create f => acc ++ [f]
      | FsOp.unlink f => acc.filter (fun g => g ≠ f))
    []

/-! ## Theorems -/

/-! ### Chunking lemmas -/

theorem rfindSpace_lt {l : List Char} {i : Nat} (h : rfindSpace l = some i) :
    i < l.length := by
  induction l generalizing i with
  | nil => simp [rfindSpace] at h
  | cons c t ih =>
    simp only [rfindSpace] at h
    cases hr : rfindSpace t with
    | some j =>
      rw [hr] at h
      cases h
      exact Nat.succ_lt_succ (ih hr)
    | none =>
      rw [hr] at h
      by_cases hc : c = ' '
      · simp [hc] at h
        simp [← h]
      · simp [hc] at h

theorem rfindSpace_zero {l : List Char} (h : rfindSpace l = some 0) :
    ∃ t, l = ' ' :: t := by
  cases l with
  | nil => simp [rfindSpace] at h
  | cons c t =>
    simp only [rfindSpace] at h
    cases hr : rfindSpace t with
    | some j => rw [hr] at h; cases h
    | none =>
      rw [hr] at h
      by_cases hc : c = ' '
      · exact ⟨t, by rw [hc]⟩
      · simp [hc] at h

theorem dropWhile_length_le (p : Char → Bool) (l : List Char) :
    (l.dropWhile p).length ≤ l.length := by
  induction l with
  | nil => simp
  | cons c t ih =>
    by_cases hc : p c
    · simp only [List.dropWhile_cons, hc, if_true, List.length_cons]
      omega
    · simp [List.dropWhile_cons, hc]

theorem splitPoint_of_some {maxLen i : Nat} {cp : List Char}
    (hr : rfindSpace (cp.take maxLen) = some i) : splitPoint maxLen cp = i := by
  simp [splitPoint, hr]

theorem splitPoint_of_none {maxLen : Nat} {cp : List Char}
    (hr : rfindSpace (cp.take maxLen) = none) : splitPoint maxLen cp = maxLen := by
  simp [splitPoint, hr]

theorem splitPoint_le (maxLen : Nat) (cp : List Char) :
    splitPoint maxLen cp ≤ maxLen := by
  cases hr : rfindSpace (cp.take maxLen) with
  | some i =>
    rw [splitPoint_of_some hr]
    have h1 := rfindSpace_lt hr
    have h2 : (cp.take maxLen).length ≤ maxLen := by
      simp [List.length_take]
    omega
  | none => rw [splitPoint_of_none hr]

theorem hardSplit_progress (maxLen : Nat) (cp : List Char) (h1 : 1 ≤ maxLen)
    (h2 : maxLen < cp.length) :
    ((cp.drop (splitPoint maxLen cp)).dropWhile pyIsSpace).length < cp.length := by
  have hdw : ∀ l : List Char, (l.dropWhile pyIsSpace).length ≤ l.length :=
    fun l => dropWhile_length_le pyIsSpace l
  cases hr : rfindSpace (cp.take maxLen) with
  | none =>
    rw [splitPoint_of_none hr]
    have h3 := hdw (cp.drop maxLen)
    have h4 : (cp.drop maxLen).length = cp.length - maxLen := List.length_drop maxLen cp
    omega
  | some i =>
    rw [splitPoint_of_some hr]
    cases i with
    | zero =>
      obtain ⟨t, ht⟩ := rfindSpace_zero hr
      have hcp : ∃ t', cp = ' ' :: t' := by
        cases cp with
        | nil => simp at h2
        | cons c cs =>
          refine ⟨cs, ?_⟩
          obtain ⟨m, hm⟩ : ∃ m, maxLen = m + 1 := ⟨maxLen - 1, by omega⟩
          rw [hm] at ht
          simp only [List.take_succ_cons] at ht
          cases ht
          rfl
      obtain ⟨t', ht'⟩ := hcp
      subst ht'
      have hsp : pyIsSpace ' ' = true := by decide
      simp only [List.drop_zero, List.dropWhile_cons, hsp, if_true]
      have := hdw t'
      simp only [List.length_cons]
      omega
    | succ j =>
      have h3 := hdw (cp.drop (j + 1))
      have h4 : (cp.drop (j + 1)).length = cp.length - (j + 1) :=
        List.length_drop (j + 1) cp
      omega

theorem hardSplitAux_final_le (maxLen : Nat) (h1 : 1 ≤ maxLen) :
    ∀ (fuel : Nat) (cp : List Char), cp.length ≤ fuel →
      ((hardSplitAux maxLen fuel cp).2).length ≤ maxLen := by
  intro fuel
  induction fuel with
  | zero =>
    intro cp hf
    have : cp = [] := List.eq_nil_of_length_eq_zero (Nat.le_zero.mp hf)
    subst this
    simp [hardSplitAux]
  | succ f ih =>
    intro cp hf
    simp only [hardSplitAux]
    split
    · assumption
    · rename_i hgt
      apply ih
      have := hardSplit_progress maxLen cp h1 (by omega)
      omega

theorem hardSplitAux_parts_le (maxLen : Nat) :
    ∀ (fuel : Nat) (cp part : List Char),
      part ∈ (hardSplitAux maxLen fuel cp).1 → part.length ≤ maxLen := by
  intro fuel
  induction fuel with
  | zero => intro cp part h; simp [hardSplitAux] at h
  | succ f ih =>
    intro cp part h
    simp only [hardSplitAux] at h
    split at h
    · simp at h
    · simp only [List.mem_cons] at h
      cases h with
      | inl h =>
        subst h
        have h1 : (cp.take (splitPoint maxLen cp)).length ≤ splitPoint maxLen cp := by
          simp [List.length_take]
        exact Nat.le_trans h1 (splitPoint_le maxLen cp)
      | inr h => exact ih _ _ h

theorem allWs_takeWhile (l : List Char) : allWs (l.takeWhile pyIsSpace) = true := by
  simp only [allWs, List.all_eq_true]
  intro w hw
  exact List.mem_takeWhile_imp hw

theorem hardSplitAux_reconstruct (maxLen : Nat) :
    ∀ (fuel : Nat) (cp : List Char),
      ∃ ws : List (List Char),
        ws.length = (hardSplitAux maxLen fuel cp).1.length ∧
        (∀ w ∈ ws, allWs w = true) ∧
        glue (hardSplitAux maxLen fuel cp).1 ws ++ (hardSplitAux maxLen fuel cp).2 = cp := by
  intro fuel
  induction fuel with
  | zero =>
    intro cp
    exact ⟨[], by simp [hardSplitAux], by simp, by simp [hardSplitAux, glue]⟩
  | succ f ih =>
    intro cp
    simp only [hardSplitAux]
    split
    · exact ⟨[], by simp, by simp, by simp [glue]⟩
    · obtain ⟨ws, hlen, hws, hglue⟩ := ih ((cp.drop (splitPoint maxLen cp)).dropWhile pyIsSpace)
      refine ⟨((cp.drop (splitPoint maxLen cp)).takeWhile pyIsSpace) :: ws, ?_, ?_, ?_⟩
      · simp [hlen]
      · intro w hw
        rcases List.mem_cons.mp hw with h | h
        · subst h; exact allWs_takeWhile _
        · exact hws w h
      · simp only [glue, List.append_assoc]
        rw [hglue, List.takeWhile_append_dropWhile, List.take_append_drop]

theorem hardSplit_parts_le (maxLen : Nat) (p part : List Char)
    (h : part ∈ (hardSplit maxLen p).1) : part.length ≤ maxLen :=
  hardSplitAux_parts_le maxLen p.length p part h

theorem hardSplit_final_le (maxLen : Nat) (h1 : 1 ≤ maxLen) (p : List Char) :
    ((hardSplit maxLen p).2).length ≤ maxLen :=
  hardSplitAux_final_le maxLen h1 p.length p (Nat.le_refl _)

theorem hardSplit_reconstruct (maxLen : Nat) (p : List Char) :
    ∃ ws : List (List Char),
      ws.length = (hardSplit maxLen p).1.length ∧
      (∀ w ∈ ws, allWs w = true) ∧
      glue (hardSplit maxLen p).1 ws ++ (hardSplit maxLen p).2 = p :=
  hardSplitAux_reconstruct maxLen p.length p

theorem splitPar_ne_nil (s : List Char) : splitPar s ≠ [] := by
  match s with
  | [] => simp [splitPar]
  | [c] => simp [splitPar]
  | c1 :: c2 :: rest =>
    simp only [splitPar]
    split
    · simp
    · split <;> simp

theorem preJoin_cons (p : List Char) (ps : List (List Char)) :
    preJoin (p :: ps) = nn ++ p ++ preJoin ps := by
  simp [preJoin]

theorem preJoin_eq_nn_joinNN {paras : List (List Char)} (h : paras ≠ []) :
    preJoin paras = nn ++ joinNN paras := by
  cases paras with
  | nil => exact absurd rfl h
  | cons q qs => simp [preJoin_cons, joinNN]

theorem joinNN_splitPar (s : List Char) : joinNN (splitPar s) = s := by
  induction s using splitPar.induct
  case case1 => simp [splitPar, joinNN, preJoin]
  case case2 c => simp [splitPar, joinNN, preJoin]
  case case3 c1 c2 rest h ih =>
    obtain ⟨h1, h2⟩ := h
    subst h1
    subst h2
    rw [show splitPar ('\n' :: '\n' :: rest) = [] :: splitPar rest by simp [splitPar]]
    show [] ++ preJoin (splitPar rest) = '\n' :: '\n' :: rest
    rw [List.nil_append, preJoin_eq_nn_joinNN (splitPar_ne_nil rest), ih]
    rfl
  case case4 c1 c2 rest hnil ih =>
    exact absurd hnil (splitPar_ne_nil _)
  case case5 c1 c2 rest h p ps hps ih =>
    rw [show splitPar (c1 :: c2 :: rest) = (c1 :: p) :: ps by
      simp only [splitPar]
      rw [if_neg h, hps]]
    show (c1 :: p) ++ preJoin ps = c1 :: c2 :: rest
    have hp : p ++ preJoin ps = c2 :: rest := by
      rw [hps] at ih
      exact ih
    rw [List.cons_append, hp]

theorem glue_append (a sa b sb : List (List Char)) (h : sa.length = a.length) :
    glue (a ++ b) (sa ++ sb) = glue a sa ++ glue b sb := by
  induction a generalizing sa with
  | nil =>
    have : sa = [] := List.eq_nil_of_length_eq_zero (by simpa using h)
    subst this
    simp [glue]
  | cons x xs ih =>
    cases sa with
    | nil => simp at h
    | cons s ss =>
      simp only [List.cons_append, glue, List.append_assoc, List.append_eq]
      rw [ih ss (by simpa using h)]

theorem appendLast_length (u : List Char) (sa : List (List Char)) :
    (appendLast u sa).length = sa.length := by
  induction sa with
  | nil => rfl
  | cons s ss ih =>
    cases ss with
    | nil => rfl
    | cons t ts =>
      simp only [appendLast, List.length_cons]
      simp only [appendLast, List.length_cons] at ih
      omega

theorem allWs_append (a b : List Char) :
    allWs (a ++ b) = (allWs a && allWs b) := by
  simp [allWs, List.all_append]

theorem allWs_appendLast (u : List Char) (hu : allWs u = true) :
    ∀ (sa : List (List Char)), (∀ s ∈ sa, allWs s = true) →
      ∀ s ∈ appendLast u sa, allWs s = true := by
  intro sa
  induction sa with
  | nil => intro _ s hs; simp [appendLast] at hs
  | cons x xs ih =>
    intro hall s hs
    cases xs with
    | nil =>
      simp only [appendLast, List.mem_singleton] at hs
      subst hs
      rw [allWs_append, hall x (by simp), hu]
      rfl
    | cons y ys =>
      simp only [appendLast, List.mem_cons] at hs
      rcases hs with h | h
      · subst h
        exact hall s (by simp)
      · exact ih (fun t ht => hall t (List.mem_cons_of_mem x ht)) s h

theorem glue_appendLast (u : List Char) :
    ∀ (a sa : List (List Char)), sa.length = a.length → a ≠ [] →
      glue a (appendLast u sa) = glue a sa ++ u := by
  intro a
  induction a with
  | nil => intro sa h ha; exact absurd rfl ha
  | cons x xs ih =>
    intro sa h ha
    cases sa with
    | nil => simp at h
    | cons s ss =>
      cases xs with
      | nil =>
        have : ss = [] := List.eq_nil_of_length_eq_zero (by simpa using h)
        subst this
        simp [appendLast, glue]
      | cons y ys =>
        cases ss with
        | nil => simp at h
        | cons t ts =>
          simp only [appendLast, glue, List.append_assoc]
          rw [ih (t :: ts) (by simpa using h) (by simp)]
          simp [glue, List.append_assoc]

theorem glue_compose (hs outL ws seps : List (List Char)) (w0 : List Char)
    (hl1 : ws.length = hs.length) (hw1 : ∀ w ∈ ws, allWs w = true)
    (hw0 : allWs w0 = true) (hl2 : seps.length = outL.length)
    (hw2 : ∀ s ∈ seps, allWs s = true) :
    ∃ w' seps', allWs w' = true ∧ (∀ s ∈ seps', allWs s = true) ∧
      seps'.length = (hs ++ outL).length ∧
      w' ++ glue (hs ++ outL) seps' = glue hs ws ++ w0 ++ glue outL seps := by
  cases hs with
  | nil =>
    have : ws = [] := List.eq_nil_of_length_eq_zero (by simpa using hl1)
    subst this
    exact ⟨w0, seps, hw0, hw2, by simpa using hl2, by simp [glue]⟩
  | cons h hs' =>
    refine ⟨[], appendLast w0 ws ++ seps, rfl, ?_, ?_, ?_⟩
    · intro s hsm
      rcases List.mem_append.mp hsm with hm | hm
      · exact allWs_appendLast w0 hw0 ws hw1 s hm
      · exact hw2 s hm
    · simp only [List.length_append, appendLast_length, hl1, List.length_cons, hl2]
    · rw [List.nil_append,
        glue_append (h :: hs') (appendLast w0 ws) outL seps
          (by rw [appendLast_length]; exact hl1),
        glue_appendLast w0 (h :: hs') ws hl1 (by simp)]

theorem packLoop_acc (maxLen : Nat) :
    ∀ (paras parts : List (List Char)) (cp : List Char),
      packLoop maxLen parts cp paras = parts ++ packLoop maxLen [] cp paras := by
  intro paras
  induction paras with
  | nil =>
    intro parts cp
    by_cases hcp : cp = [] <;> simp [packLoop, hcp]
  | cons p ps ih =>
    intro parts cp
    simp only [packLoop]
    split
    · rw [ih parts, ih []]
    · rw [ih ((if cp = [] then parts else parts ++ [cp]) ++ (hardSplit maxLen p).1)
          (hardSplit maxLen p).2,
        ih ((if cp = [] then [] else [] ++ [cp]) ++ (hardSplit maxLen p).1)
          (hardSplit maxLen p).2]
      by_cases hcp : cp = [] <;> simp [hcp]

theorem packLoop_parts_le (maxLen : Nat) (h1 : 1 ≤ maxLen) :
    ∀ (paras parts : List (List Char)) (cp part : List Char),
      (∀ q ∈ parts, q.length ≤ maxLen) → cp.length ≤ maxLen →
      part ∈ packLoop maxLen parts cp paras → part.length ≤ maxLen := by
  intro paras
  induction paras with
  | nil =>
    intro parts cp part hparts hcp hmem
    by_cases hcpe : cp = []
    · simp only [packLoop, hcpe, if_pos rfl] at hmem
      exact hparts part hmem
    · simp only [packLoop, if_neg hcpe, List.mem_append, List.mem_singleton] at hmem
      rcases hmem with h | h
      · exact hparts part h
      · subst h; exact hcp
  | cons p ps ih =>
    intro parts cp part hparts hcp hmem
    simp only [packLoop] at hmem
    split at hmem
    · rename_i hfit
      by_cases hcpe : cp = []
      · rw [if_pos hcpe] at hmem
        refine ih parts p part hparts ?_ hmem
        subst hcpe
        simp at hfit
        omega
      · rw [if_neg hcpe] at hmem
        refine ih parts _ part hparts ?_ hmem
        simp only [List.length_append, nn, List.length_cons, List.length_nil]
        omega
    · refine ih _ _ part ?_ ?_ hmem
      · intro q hq
        rcases List.mem_append.mp hq with hm | hm
        · by_cases hcpe : cp = []
          · rw [if_pos hcpe] at hm
            exact hparts q hm
          · rw [if_neg hcpe] at hm
            rcases List.mem_append.mp hm with hm2 | hm2
            · exact hparts q hm2
            · rw [List.mem_singleton.mp hm2]
              exact hcp
        · exact hardSplit_parts_le maxLen p q hm
      · exact hardSplit_final_le maxLen h1 p

theorem packLoop_reconstruct (maxLen : Nat) :
    ∀ (paras : List (List Char)) (cp : List Char),
      ∃ w0 seps, allWs w0 = true ∧ (∀ s ∈ seps, allWs s = true) ∧
        seps.length = (packLoop maxLen [] cp paras).length ∧
        w0 ++ glue (packLoop maxLen [] cp paras) seps = cp ++ preJoin paras := by
  intro paras
  induction paras with
  | nil =>
    intro cp
    by_cases hcpe : cp = []
    · subst hcpe
      exact ⟨[], [], rfl, by simp, by simp [packLoop], by simp [packLoop, glue, preJoin]⟩
    · refine ⟨[], [[]], rfl, by simp [allWs], by simp [packLoop, hcpe], ?_⟩
      simp [packLoop, hcpe, glue, preJoin]
  | cons p ps ih =>
    intro cp
    simp only [packLoop]
    split
    · rename_i hfit
      by_cases hcpe : cp = []
      · rw [if_pos hcpe]
        subst hcpe
        obtain ⟨w0, seps, hw0, hws, hlen, hglue⟩ := ih p
        refine ⟨nn ++ w0, seps, ?_, hws, hlen, ?_⟩
        · rw [allWs_append, hw0]
          rfl
        · rw [List.append_assoc, hglue, preJoin_cons]
          simp [List.append_assoc]
      · rw [if_neg hcpe]
        obtain ⟨w0, seps, hw0, hws, hlen, hglue⟩ := ih (cp ++ nn ++ p)
        refine ⟨w0, seps, hw0, hws, hlen, ?_⟩
        rw [hglue, preJoin_cons]
        simp [List.append_assoc]
    · rename_i hfit
      obtain ⟨ws, hwlen, hwws, hwglue⟩ := hardSplit_reconstruct maxLen p
      obtain ⟨w0'', seps2, hw0'', hws2, hlen2, hglue2⟩ := ih (hardSplit maxLen p).2
      obtain ⟨w', seps', hw', hws', hlen', hglue'⟩ :=
        glue_compose (hardSplit maxLen p).1 (packLoop maxLen [] (hardSplit maxLen p).2 ps)
          ws seps2 w0'' hwlen hwws hw0'' hlen2 hws2
      have hstar : w' ++ glue ((hardSplit maxLen p).1 ++
          packLoop maxLen [] (hardSplit maxLen p).2 ps) seps' = p ++ preJoin ps := by
        rw [hglue', List.append_assoc, hglue2, ← List.append_assoc, hwglue]
      by_cases hcpe : cp = []
      · rw [if_pos hcpe]
        subst hcpe
        simp only [List.nil_append]
        rw [packLoop_acc maxLen ps ((hardSplit maxLen p).1) (hardSplit maxLen p).2]
        refine ⟨nn ++ w', seps', ?_, hws', ?_, ?_⟩
        · rw [allWs_append, hw']
          rfl
        · rw [hlen']
        · rw [List.append_assoc, hstar, preJoin_cons]
          simp [List.append_assoc]
      · rw [if_neg hcpe]
        simp only [List.nil_append]
        rw [packLoop_acc maxLen ps ([cp] ++ (hardSplit maxLen p).1) (hardSplit maxLen p).2]
        refine ⟨[], (nn ++ w') :: seps', rfl, ?_, ?_, ?_⟩
        · intro s hsm
          rcases List.mem_cons.mp hsm with h | h
          · subst h
            rw [allWs_append, hw']
            rfl
          · exact hws' s h
        · simp only [List.cons_append, List.length_cons, List.append_assoc]
          rw [hlen']
          simp
        · simp only [List.cons_append, glue, List.nil_append, List.append_assoc,
            List.append_eq]
          rw [hstar, preJoin_cons]
          simp [List.append_assoc]

/-- Claim C2 (confirmed): for every input string and every positive
maxLength, every element of the list returned by `split_message` has
length at most maxLength.  (For `max_length = 0` the Python loop itself
diverges on most oversized inputs, so positivity is exactly the claim's
premise.) -/
theorem split_message_length_le (message part : List Char) (maxLen : Nat)
    (hpos : 1 ≤ maxLen) (hmem : part ∈ split_message message maxLen) :
    part.length ≤ maxLen := by
  unfold split_message at hmem
  split at hmem
  · rename_i hle
    rw [List.mem_singleton.mp hmem]
    exact hle
  · exact packLoop_parts_le maxLen hpos (splitPar message) [] [] part
      (by intro q hq; simp at hq) (by simp) hmem

/-- Witness for `split_message_length_le`: the first chunk of
`split_message "abcd" 2` is within the bound. -/
theorem split_message_length_le_witness :
    (['a', 'b'] : List Char).length ≤ 2 :=
  split_message_length_le ['a', 'b', 'c', 'd'] ['a', 'b'] 2 (by decide) (by decide)

/-- Claim C1 (counterexample): `split_message "aa bb" 3` returns
`["aa", "bb"]` — the hard split at the space discards that space
(`current_part[split_point:].lstrip()`, src/bot.py line 451), so neither
plain concatenation nor concatenation with the paragraph separator
reinserted reproduces the input: the forced hard split does not preserve
every original character. -/
theorem split_message_drops_space_cex :
    split_message (['a', 'a', ' ', 'b', 'b'] : List Char) 3 =
      [['a', 'a'], ['b', 'b']] ∧
    (['a', 'a'] : List Char) ++ ['b', 'b'] ≠ ['a', 'a', ' ', 'b', 'b'] ∧
    (['a', 'a'] : List Char) ++ nn ++ ['b', 'b'] ≠ ['a', 'a', ' ', 'b', 'b'] := by
  decide

/-- Claim C1 (amended): for every input string and every positive
maxLength there are whitespace-only separator strings, one after each
chunk (the dropped `'\n\n'` paragraph separators and the whitespace
removed by `lstrip` at hard splits) plus possibly one in front, whose
interleaving with the chunks of `split_message` reproduces the input
exactly; i.e. the chunks preserve the input up to dropped whitespace —
but not every original character: hard splits drop the whitespace at the
split point. -/
theorem split_message_reconstruct_ws (message : List Char) (maxLen : Nat)
    (_hpos : 1 ≤ maxLen) :
    ∃ w0 seps, allWs w0 = true ∧ (∀ s ∈ seps, allWs s = true) ∧
      seps.length = (split_message message maxLen).length ∧
      w0 ++ glue (split_message message maxLen) seps = message := by
  unfold split_message
  split
  · refine ⟨[], [[]], rfl, ?_, by simp, by simp [glue]⟩
    intro s hs
    rw [List.mem_singleton.mp hs]
    rfl
  · obtain ⟨p0, ps, hsp⟩ : ∃ p0 ps, splitPar message = p0 :: ps := by
      cases h : splitPar message with
      | nil => exact absurd h (splitPar_ne_nil message)
      | cons a b => exact ⟨a, b, rfl⟩
    have hmsg : p0 ++ preJoin ps = message := by
      have hj := joinNN_splitPar message
      rw [hsp] at hj
      exact hj
    rw [hsp]
    simp only [packLoop, List.length_nil, List.nil_append, Nat.zero_add]
    split
    · rw [if_pos trivial]
      obtain ⟨w0, seps, hw0, hws, hlen, hglue⟩ := packLoop_reconstruct maxLen ps p0
      exact ⟨w0, seps, hw0, hws, hlen, by rw [hglue, hmsg]⟩
    · rw [if_pos trivial]
      simp only [List.nil_append]
      rw [packLoop_acc maxLen ps ((hardSplit maxLen p0).1) (hardSplit maxLen p0).2]
      obtain ⟨ws, hwlen, hwws, hwglue⟩ := hardSplit_reconstruct maxLen p0
      obtain ⟨w0'', seps2, hw0'', hws2, hlen2, hglue2⟩ :=
        packLoop_reconstruct maxLen ps (hardSplit maxLen p0).2
      obtain ⟨w', seps', hw', hws', hlen', hglue'⟩ :=
        glue_compose (hardSplit maxLen p0).1
          (packLoop maxLen [] (hardSplit maxLen p0).2 ps)
          ws seps2 w0'' hwlen hwws hw0'' hlen2 hws2
      refine ⟨w', seps', hw', hws', hlen', ?_⟩
      rw [hglue', List.append_assoc, hglue2, ← List.append_assoc, hwglue, hmsg]

/-- Witness for `split_message_reconstruct_ws`: the counterexample
input itself — `"aa bb"` is recovered from `["aa", "bb"]` by
reinserting the dropped space. -/
theorem split_message_reconstruct_ws_witness :
    ∃ w0 seps, allWs w0 = true ∧ (∀ s ∈ seps, allWs s = true) ∧
      seps.length = (split_message (['a', 'a', ' ', 'b', 'b'] : List Char) 3).length ∧
      w0 ++ glue (split_message (['a', 'a', ' ', 'b', 'b'] : List Char) 3) seps =
        ['a', 'a', ' ', 'b', 'b'] :=
  split_message_reconstruct_ws ['a', 'a', ' ', 'b', 'b'] 3 (by decide)

/-- Claim C10 (confirmed): for every string message and every maxLength
with `len(message) ≤ maxLength` (including the empty string),
`split_message` returns exactly the one-element list containing the
message unchanged — this is the early return of src/bot.py lines
428–429. -/
theorem split_message_short (message : List Char) (maxLen : Nat)
    (h : message.length ≤ maxLen) :
    split_message message maxLen = [message] := by
  simp [split_message, h]

/-- Witness for `split_message_short`: a two-character message with
room to spare, and the empty message with `maxLength = 0`. -/
theorem split_message_short_witness :
    split_message (['h', 'i'] : List Char) 5 = [(['h', 'i'] : List Char)] ∧
    split_message ([] : List Char) 0 = [([] : List Char)] :=
  ⟨split_message_short ['h', 'i'] 5 (by decide),
   split_message_short [] 0 (by decide)⟩

/-- Claim C3 (counterexample): on the `.oga` path with a failing
transcoder, `save_audio_as_mp3` raises the FFmpeg error and the raw
`.oga` temporary file is still on disk — `os.unlink(input_path)`
(src/bot.py line 266) is only reached after a successful
`convert_oga_to_mp3`, and no `try`/`finally` protects it. -/
theorem save_audio_oga_leak_cex :
    (save_audio_as_mp3 true false).2 = Except.error ffmpegErrMsg ∧
    TempFile.ogaIn ∈ remainingFiles (save_audio_as_mp3 true false).1 := by
  decide

/-- Claim C3 (amended): on the `.oga` path the intermediate raw file is
deleted before `save_audio_as_mp3` returns only on the success path; on
a transcoding failure the exception propagates before the unlink and
both temporary files (the `.mp3` output and the raw `.oga`) remain on
disk. -/
theorem save_audio_temp_lifecycle (transcodeOk : Bool) :
    remainingFiles (save_audio_as_mp3 true transcodeOk).1 =
      (if transcodeOk then [TempFile.mp3Out]
       else [TempFile.mp3Out, TempFile.ogaIn]) ∧
    (save_audio_as_mp3 true transcodeOk).2 =
      (if transcodeOk then Except.ok TempFile.mp3Out
       else Except.error ffmpegErrMsg) := by
  cases transcodeOk <;> exact ⟨rfl, rfl⟩

/-- Claim C4 (counterexample): an operation whose primary calls all
raise the permanent (non-transient) error `"bad request"` and whose
fallback succeeds immediately.  The wrapper makes 4 calls in total —
`primaryPhase` consumes all 3 primary attempts (the primary loop of
src/bot.py lines 133–146 retries on every exception, never consulting
the transient classification) before the single fallback call — whereas
the claim says the permanent error is never retried against the primary
target. -/
theorem retry_primary_permanent_cex :
    isTransient ("bad request").data = false ∧
    primaryPhase (fun _ m => match m with
      | ModelName.primary => Except.error ("bad request").data
      | ModelName.fallback => Except.ok (7 : Nat)) 3 0 = (none, 3) ∧
    retry_with_model_fallback (fun _ m => match m with
      | ModelName.primary => Except.error ("bad request").data
      | ModelName.fallback => Except.ok (7 : Nat)) = (Except.ok 7, 4) := by
  decide

/-- Claim C4 (amended): a permanent error raised during the primary
phase is retried against the primary target exactly like a transient
one — the primary phase always runs its full 3 attempts before control
moves to the fallback target; the transient/permanent distinction only
affects the fallback phase. -/
theorem retry_primary_exhausts_attempts {α : Type}
    (op : Nat → ModelName → Except (List Char) α) (e0 e1 e2 : List Char)
    (h0 : op 0 ModelName.primary = Except.error e0)
    (h1 : op 1 ModelName.primary = Except.error e1)
    (h2 : op 2 ModelName.primary = Except.error e2)
    (_hperm : isTransient e0 = false) :
    primaryPhase op 3 0 = (none, 3) ∧
    retry_with_model_fallback op = fallbackPhase op 5 3 := by
  have hp : primaryPhase op 3 0 = (none, 3) := by
    simp [primaryPhase, h0, h1, h2]
  exact ⟨hp, by simp [retry_with_model_fallback, hp]⟩

/-- Witness for `retry_primary_exhausts_attempts`: the concrete
permanent-error operation of the counterexample. -/
theorem retry_primary_exhausts_attempts_witness :
    primaryPhase (fun _ m => match m with
      | ModelName.primary => Except.error ("auth failure").data
      | ModelName.fallback => Except.ok (9 : Nat)) 3 0 = (none, 3) ∧
    retry_with_model_fallback (fun _ m => match m with
      | ModelName.primary => Except.error ("auth failure").data
      | ModelName.fallback => Except.ok (9 : Nat)) =
      fallbackPhase (fun _ m => match m with
        | ModelName.primary => Except.error ("auth failure").data
        | ModelName.fallback => Except.ok (9 : Nat)) 5 3 :=
  retry_primary_exhausts_attempts _ _ _ _ rfl rfl rfl (by decide)

/-- Claim C5 (confirmed): when every primary call raises a transient
error, the first fallback call (the fourth call overall) raises a
transient error and the second fallback call succeeds, the wrapper
returns that success and the wrapped operation is invoked exactly
`3 + 2 = 5` times. -/
theorem retry_fallback_count {α : Type}
    (op : Nat → ModelName → Except (List Char) α) (v : α)
    (hp : ∀ n, ∃ e, op n ModelName.primary = Except.error e ∧ isTransient e = true)
    (hf3 : ∃ e, op 3 ModelName.fallback = Except.error e ∧ isTransient e = true)
    (hf4 : op 4 ModelName.fallback = Except.ok v) :
    retry_with_model_fallback op = (Except.ok v, 5) := by
  obtain ⟨e0, h0, -⟩ := hp 0
  obtain ⟨e1, h1, -⟩ := hp 1
  obtain ⟨e2, h2, -⟩ := hp 2
  obtain ⟨e3, h3, ht3⟩ := hf3
  simp [retry_with_model_fallback, primaryPhase, fallbackPhase, h0, h1, h2, h3,
    ht3, hf4]

/-- Witness for `retry_fallback_count`: primary always answers `503`,
the fallback answers `503` once and then succeeds with `42`. -/
theorem retry_fallback_count_witness :
    retry_with_model_fallback (fun n m => match m with
      | ModelName.primary => Except.error ("503").data
      | ModelName.fallback =>
        if n = 4 then Except.ok (42 : Nat) else Except.error ("503").data) =
      (Except.ok 42, 5) :=
  retry_fallback_count _ 42
    (fun _ => ⟨("503").data, rfl, by decide⟩)
    ⟨("503").data, by decide, by decide⟩
    (by decide)

/-- Claim C9 (confirmed): the decorated `summarize_text` never raises:
its body catches every provider exception (returning the visible error
string `"Ошибка при создании резюме: " + str(e)`) and maps an empty
provider response to a visible error message, so the wrapped operation
always succeeds on the very first primary attempt and the caller always
receives a displayable summary string. -/
theorem summarize_text_total (provider : Nat → ModelName → Except (List Char) (List Char)) :
    summarize_text provider =
      (Except.ok (summarizeCall (provider 0 ModelName.primary)), 1) ∧
    (∀ e, summarizeCall (Except.error e) = sumErrPre ++ e) ∧
    summarizeCall (Except.ok []) = sumEmptyMsg := by
  refine ⟨?_, fun e => rfl, rfl⟩
  simp [summarize_text, retry_with_model_fallback, primaryPhase, summarizeOp]

/-- Claim C8 (code_bug evaluation): on the fenced code block
`"```python\nprint(1)```"`, `format_html` leaves the opening
`<code class="python">` tag HTML-escaped in its output — the selective
unescape regex (src/bot.py line 90) matches only bare tag names, never
the attribute-bearing opening tag inserted by `code_block_replacer` —
so the safe form with un-escaped `pre`/`code` markup required by the
claim is not produced. -/
theorem format_html_code_open_tag_escaped :
    format_html (("```python\nprint(1)```").data) =
      ("<pre>&lt;code class=\"python\"&gt;print(1)</code></pre>").data ∧
    isSubstring ("&lt;code class=").data
      (format_html (("```python\nprint(1)```").data)) = true ∧
    isSubstring ("<code class=").data
      (format_html (("```python\nprint(1)```").data)) = false := by
  decide

/-- Claim C6 (counterexample): when the STT provider returns no text
(every call answers the empty string), the transcription outcome is an
error, not a distinct non-error terminal state: `audio_to_text` raises
(src/bot.py line 221 raises, line 228 re-wraps, the retry wrapper
exhausts 3 primary + 1 fallback call since the message is not
transient), and `process_audio` takes the same `except` path as for any
provider error, replying with an error message. -/
theorem empty_transcript_error_cex :
    (audio_to_text (fun _ _ => Except.ok [])).1 =
      Except.error (sttErrPre ++ sttEmptyMsg) ∧
    (audio_to_text (fun _ _ => Except.ok [])).2 = 4 ∧
    process_audio (fun _ _ => Except.ok []) (fun _ _ => Except.ok ['x']) =
      [Action.replyError (procErrPre ++ (sttErrPre ++ sttEmptyMsg))] := by
  decide

/-- Claim C6 (amended): when the STT provider returns no text,
`audio_to_text` raises an exception whose message distinctly reports a
possibly speechless recording (`sttEmptyMsg`), `process_audio` reports
it through the error path — the same channel as provider errors, not a
distinct non-error outcome — and no summarization call is made for that
message. -/
theorem empty_transcript_no_summarize
    (stt sums : Nat → ModelName → Except (List Char) (List Char))
    (h : ∀ n m, stt n m = Except.ok []) :
    process_audio stt sums =
      [Action.replyError (procErrPre ++ (sttErrPre ++ sttEmptyMsg))] ∧
    (process_audio stt sums).all
      (fun a => match a with
        | Action.callSummarize _ => false
        | _ => true) = true := by
  have hM : isTransient (sttErrPre ++ sttEmptyMsg) = false := by decide
  have hstep : ∀ n m, audioToTextOnce (stt n m) =
      Except.error (sttErrPre ++ sttEmptyMsg) := by
    intro n m
    rw [h n m]
    rfl
  have htr : (audio_to_text stt).1 = Except.error (sttErrPre ++ sttEmptyMsg) := by
    simp [audio_to_text, retry_with_model_fallback, primaryPhase, fallbackPhase,
      hstep, hM]
  constructor
  · simp [process_audio, htr]
  · simp [process_audio, htr]

/-- Witness for `empty_transcript_no_summarize`: a provider that always
returns the empty transcript. -/
theorem empty_transcript_no_summarize_witness :
    process_audio (fun _ _ => Except.ok []) (fun _ _ => Except.ok ['y']) =
      [Action.replyError (procErrPre ++ (sttErrPre ++ sttEmptyMsg))] ∧
    (process_audio (fun _ _ => Except.ok []) (fun _ _ => Except.ok ['y'])).all
      (fun a => match a with
        | Action.callSummarize _ => false
        | _ => true) = true :=
  empty_transcript_no_summarize _ _ (fun _ _ => rfl)

/-- Claim C7 (counterexample): a formatted message whose markup fails
`validate_html` (an unmatched `<b>`).  `send_formatted_message` sends a
single message with `parse_mode = None` whose text still contains the
`<b>` markup — both the one wrapped around the title and the invalid one
from the body — so the delivery layer forwards the invalid markup
instead of a tag-free original text. -/
theorem send_invalid_html_cex :
    validate_html (("<b>Summary</b>\n\n<b>hello").data) = false ∧
    send_formatted_message ("<b>hello").data (some ("Summary").data) false =
      [SendCall.mk ("Summary\n\n<b>Summary</b>\n\n<b>hello").data none] ∧
    isSubstring ("<b>").data ("Summary\n\n<b>Summary</b>\n\n<b>hello").data = true := by
  decide

/-- Claim C7 (amended): when the built markup fails the structural
well-formedness check, `send_formatted_message` disables markup parsing
(`parse_mode = None` on every sent chunk) and prepends the plain title,
but the text it sends is the already formatted text with all its tags
intact (title wrapper and invalid markup included), not a tag-free
original text. -/
theorem send_invalid_html_plain_mode (text : List Char)
    (title : Option (List Char)) (useSpoiler : Bool)
    (h : validate_html (spoilerWrap (titleWrap text title) useSpoiler) = false) :
    send_formatted_message text title useSpoiler =
      (split_message
        (match title with
         | some t => t ++ nn ++ spoilerWrap (titleWrap text title) useSpoiler
         | none => spoilerWrap (titleWrap text title) useSpoiler)
        MAX_MESSAGE_LENGTH).map (fun m => SendCall.mk m none) := by
  cases title with
  | none => simp [send_formatted_message, h]
  | some t => simp [send_formatted_message, h]

/-- Witness for `send_invalid_html_plain_mode`: the unmatched-`<b>`
input of the counterexample, with a different title. -/
theorem send_invalid_html_plain_mode_witness :
    send_formatted_message ("<b>oops").data (some ("Transcription").data) false =
      (split_message
        (match some ("Transcription").data with
         | some t => t ++ nn ++
             spoilerWrap (titleWrap ("<b>oops").data (some ("Transcription").data)) false
         | none => spoilerWrap (titleWrap ("<b>oops").data (some ("Transcription").data)) false)
        MAX_MESSAGE_LENGTH).map (fun m => SendCall.mk m none) :=
  send_invalid_html_plain_mode ("<b>oops").data (some ("Transcription").data) false
    (by decide)

end VoiceBot
